import Mathlib

set_option autoImplicit false

namespace Ephios

/-!
Shallow embedding of the ephios source excerpt:
`ephios/user_management/views/consequences.py`,
`ephios/settings.py`, `ephios/core/context.py`,
`ephios/plugins/simpleresource/models.py`, and migration
`user_management/0004_auto_20201014_1648.py`.
-/

/-- Modelled from the spec: the states of a `Consequence`
(`ephios/user_management/models.py` is not part of the excerpt; only FAILED is
explicit in the view source). PENDING is the implicit initial state; CONFIRMED,
DENIED and FAILED are terminal. -/
inductive ConsequenceState where
  | pending
  | confirmed
  | denied
  | failed
  deriving DecidableEq, Repr

/-- Modelled from the spec: the string value of a consequence state as it is
serialized into the JSON response body (`consequence.state`). -/
def stateName : ConsequenceState → String
  | .pending => "needs_confirmation"
  | .confirmed => "confirmed"
  | .denied => "denied"
  | .failed => "failed"

/-- Modelled from the spec: a `Consequence` record
(`ephios/user_management/models.py` is not in the excerpt). `effectFailure`
abstracts the outcome of attempting the consequence's underlying effect during
`confirm`: `none` means the effect succeeds, `some reason` means it fails with
that human-readable reason. `editableBy` abstracts the authorization policy
behind `editable_consequences` (the set of user ids empowered to act). -/
structure Consequence where
  pk : Nat
  state : ConsequenceState
  fail_reason : String
  effectFailure : Option String
  editableBy : List Nat
  deriving DecidableEq, Repr

/-- Modelled from the spec: `deny(actor)` unconditionally moves the consequence
to the DENIED state. -/
def Consequence.deny (c : Consequence) (_actor : Nat) : Consequence :=
  { c with state := .denied }

/-- Modelled from the spec: `confirm(actor)` attempts the underlying effect; on
success the state becomes CONFIRMED, on failure it becomes FAILED and
`fail_reason` records the reason. -/
def Consequence.confirm (c : Consequence) (_actor : Nat) : Consequence :=
  match c.effectFailure with
  | none => { c with state := .confirmed }
  | some reason => { c with state := .failed, fail_reason := reason }

/-- Modelled from the spec: `editable_consequences(user)` returns the subset of
consequences the user is authorized to confirm or deny
(`ephios/user_management/consequences.py` is not in the excerpt; the
authorization predicate is abstracted as the `editableBy` field). -/
def editable_consequences (db : List Consequence) (user : Nat) : List Consequence :=
  db.filter (fun c => decide (user ∈ c.editableBy))

/-- An HTTP POST request as seen by `ConsequenceUpdateView.post`: whether the
session is authenticated (`LoginRequiredMixin`), whether `request.is_ajax()`
holds, and the POST form data. -/
structure Request where
  authenticated : Bool
  is_ajax : Bool
  postData : List (String × String)
  deriving DecidableEq, Repr

/-- `request.POST[key]`: a Django `QueryDict` lookup yields the last value
submitted under the key; an absent key raises `MultiValueDictKeyError`,
modelled as `none`. -/
def formGet (data : List (String × String)) (key : String) : Option String :=
  ((data.filter (fun p => decide (p.1 = key))).getLast?).map (fun p => p.2)

/-- `SingleObjectMixin.get_object` over
`get_queryset() = editable_consequences(self.request.user)`: the consequence
with the requested primary key, or `none` (an Http404) when no editable
consequence carries that key. -/
def get_object (db : List Consequence) (user : Nat) (pk : Nat) : Option Consequence :=
  (editable_consequences db user).find? (fun c => decide (c.pk = pk))

/-- The body of a response returned by `ConsequenceUpdateView.post`. -/
inductive ViewResponse where
  | json (fields : List (String × String))
  | redirect (target : String)
  deriving DecidableEq, Repr

/-- The outcome of one POST to the consequence endpoint: a response together
with the flash messages produced and the database after the request, or one of
the aborting outcomes (login required, Http404, key error), each of which
leaves the database untouched. -/
inductive PostOutcome where
  | ok (resp : ViewResponse) (flashes : List String) (db : List Consequence)
  | requiresLogin (db : List Consequence)
  | notFound (db : List Consequence)
  | keyError (key : String) (db : List Consequence)
  deriving DecidableEq, Repr

/-- The database state after the request, whatever the outcome. -/
def PostOutcome.db : PostOutcome → List Consequence
  | .ok _ _ db => db
  | .requiresLogin db => db
  | .notFound db => db
  | .keyError _ db => db

/-- Persisting a mutated consequence: the row carrying its primary key is
replaced. -/
def updateDb (db : List Consequence) (c : Consequence) : List Consequence :=
  db.map (fun x => if x.pk = c.pk then c else x)

/-- The action dispatch of `ConsequenceUpdateView.post`: `"deny"` invokes
`deny`, `"confirm"` invokes `confirm`, any other value falls through leaving
the consequence as it is. -/
def applyAction (c : Consequence) (user : Nat) (action : String) : Consequence :=
  if action = "deny" then c.deny user
  else if action = "confirm" then c.confirm user
  else c

/-- The flash message produced by `ConsequenceUpdateView.post` when the
resulting state is FAILED. -/
def errorActionMessage : String := "There was an error performing that action."

/-- `ConsequenceUpdateView.post`: fetch the consequence from the editable
queryset, dispatch on `request.POST["action"]`, then answer with a JSON body
(keys `state` and `fail_reason`) for AJAX requests, or redirect to
`event_management:index`, flashing an error exactly when the resulting state
is FAILED. Only `deny` and `confirm` persist a change. -/
def consequenceUpdatePost (db : List Consequence) (user : Nat) (req : Request)
    (pk : Nat) : PostOutcome :=
  if req.authenticated = false then .requiresLogin db
  else
    match get_object db user pk with
    | none => .notFound db
    | some consequence =>
      match formGet req.postData "action" with
      | none => .keyError "action" db
      | some action =>
        let c := applyAction consequence user action
        let db' := if action = "deny" ∨ action = "confirm" then updateDb db c else db
        if req.is_ajax then
          .ok (.json [("state", stateName c.state), ("fail_reason", c.fail_reason)]) [] db'
        else if c.state = .failed then
          .ok (.redirect "event_management:index") [errorActionMessage] db'
        else
          .ok (.redirect "event_management:index") [] db'

/-- Primary keys identify rows: no two distinct rows of the consequence table
share a pk. -/
def pksUnique (db : List Consequence) : Prop :=
  ∀ x ∈ db, ∀ y ∈ db, x.pk = y.pk → x = y

instance (db : List Consequence) : Decidable (pksUnique db) := by
  unfold pksUnique
  infer_instance

theorem applyAction_pk (c : Consequence) (user : Nat) (action : String) :
    (applyAction c user action).pk = c.pk := by
  unfold applyAction Consequence.deny Consequence.confirm
  by_cases h1 : action = "deny" <;> by_cases h2 : action = "confirm" <;>
    cases hf : c.effectFailure <;> simp [h1, h2, hf]

/-- Claim C1: for a POST with action `"confirm"` or `"deny"` by an
authenticated user on an editable consequence, an AJAX request is answered
with a JSON body holding exactly the keys `state` and `fail_reason` of the
resulting consequence, and a non-AJAX request with a redirect to the
event-management index together with an error flash exactly when the
resulting state is FAILED. -/
theorem c1_response_shape (db : List Consequence) (user : Nat) (req : Request)
    (pk : Nat) (c : Consequence) (a : String)
    (hauth : req.authenticated = true)
    (hfound : get_object db user pk = some c)
    (hact : formGet req.postData "action" = some a)
    (ha : a = "confirm" ∨ a = "deny") :
    (req.is_ajax = true →
      consequenceUpdatePost db user req pk =
        .ok (.json [("state", stateName (applyAction c user a).state),
                    ("fail_reason", (applyAction c user a).fail_reason)])
          [] (updateDb db (applyAction c user a)))
    ∧ (req.is_ajax = false →
      consequenceUpdatePost db user req pk =
        .ok (.redirect "event_management:index")
          (if (applyAction c user a).state = .failed then [errorActionMessage] else [])
          (updateDb db (applyAction c user a))) := by
  have hsave : (a = "deny" ∨ a = "confirm") := ha.symm
  constructor <;> intro hajax <;>
    by_cases hfail : (applyAction c user a).state = .failed <;>
      simp [consequenceUpdatePost, hauth, hfound, hact, hajax, hsave, hfail]

def wConsequence : Consequence :=
  { pk := 1, state := .pending, fail_reason := "", effectFailure := none,
    editableBy := [7] }

def wDb : List Consequence := [wConsequence]

def wReqAjaxConfirm : Request :=
  { authenticated := true, is_ajax := true, postData := [("action", "confirm")] }

theorem c1_response_shape_witness :
    wReqAjaxConfirm.authenticated = true
    ∧ get_object wDb 7 1 = some wConsequence
    ∧ formGet wReqAjaxConfirm.postData "action" = some "confirm"
    ∧ ((wReqAjaxConfirm.is_ajax = true →
        consequenceUpdatePost wDb 7 wReqAjaxConfirm 1 =
          .ok (.json [("state", stateName (applyAction wConsequence 7 "confirm").state),
                      ("fail_reason", (applyAction wConsequence 7 "confirm").fail_reason)])
            [] (updateDb wDb (applyAction wConsequence 7 "confirm")))
      ∧ (wReqAjaxConfirm.is_ajax = false →
        consequenceUpdatePost wDb 7 wReqAjaxConfirm 1 =
          .ok (.redirect "event_management:index")
            (if (applyAction wConsequence 7 "confirm").state = .failed
              then [errorActionMessage] else [])
            (updateDb wDb (applyAction wConsequence 7 "confirm")))) :=
  ⟨by decide, by decide, by decide,
    c1_response_shape wDb 7 wReqAjaxConfirm 1 wConsequence "confirm"
      (by decide) (by decide) (by decide) (Or.inl rfl)⟩

theorem mem_updateDb_of_pk_ne (db : List Consequence) (c x : Consequence)
    (h : x ∈ db) (hne : x.pk ≠ c.pk) : x ∈ updateDb db c := by
  have hx : (fun y => if y.pk = c.pk then c else y) x = x := by simp [hne]
  have hm := List.mem_map_of_mem (fun y => if y.pk = c.pk then c else y) h
  rw [hx] at hm
  exact hm

/-- Claim C2: the endpoint acts only on editable consequences. A pk outside
`editable_consequences(user)` yields the not-found outcome (there is no
forbidden outcome) with the database unchanged, and any consequence the user
is not empowered to edit survives any request unchanged. -/
theorem c2_editable_only (db : List Consequence) (user : Nat) (req : Request)
    (pk : Nat) (hauth : req.authenticated = true) (huniq : pksUnique db) :
    (get_object db user pk = none →
      consequenceUpdatePost db user req pk = .notFound db)
    ∧ (∀ c0 ∈ db, user ∉ c0.editableBy →
        c0 ∈ (consequenceUpdatePost db user req pk).db) := by
  constructor
  · intro hnone
    simp [consequenceUpdatePost, hauth, hnone]
  · intro c0 hc0 hced
    cases hobj : get_object db user pk with
    | none => simp [consequenceUpdatePost, hauth, hobj, PostOutcome.db, hc0]
    | some c =>
      have hcmem : c ∈ editable_consequences db user := List.mem_of_find?_eq_some hobj
      have hc_db : c ∈ db ∧ user ∈ c.editableBy := by
        simpa [editable_consequences, List.mem_filter] using hcmem
      have hne : c0.pk ≠ c.pk := by
        intro hpk
        have heq : c0 = c := huniq c0 hc0 c hc_db.1 hpk
        exact hced (by rw [heq]; exact hc_db.2)
      cases hact : formGet req.postData "action" with
      | none => simp [consequenceUpdatePost, hauth, hobj, hact, PostOutcome.db, hc0]
      | some action =>
        have hmem : c0 ∈ updateDb db (applyAction c user action) :=
          mem_updateDb_of_pk_ne db (applyAction c user action) c0 hc0
            (by rw [applyAction_pk]; exact hne)
        by_cases hsave : action = "deny" ∨ action = "confirm" <;>
          by_cases hajax : req.is_ajax <;>
            by_cases hfail : (applyAction c user action).state = .failed <;>
              simp [consequenceUpdatePost, hauth, hobj, hact, hsave, hajax, hfail,
                PostOutcome.db, hc0, hmem]

def wOther : Consequence :=
  { pk := 2, state := .pending, fail_reason := "", effectFailure := none,
    editableBy := [] }

def wDb2 : List Consequence := [wConsequence, wOther]

def wReqDeny : Request :=
  { authenticated := true, is_ajax := false, postData := [("action", "deny")] }

theorem c2_editable_only_witness :
    wReqDeny.authenticated = true
    ∧ pksUnique wDb2
    ∧ ((get_object wDb2 7 99 = none →
        consequenceUpdatePost wDb2 7 wReqDeny 99 = .notFound wDb2)
      ∧ (∀ c0 ∈ wDb2, 7 ∉ c0.editableBy →
          c0 ∈ (consequenceUpdatePost wDb2 7 wReqDeny 99).db)) :=
  ⟨by decide, by decide, c2_editable_only wDb2 7 wReqDeny 99 (by decide) (by decide)⟩

/-- Claim C3: an action value other than `"deny"` and `"confirm"` invokes
neither transition and leaves the database unchanged: the unrecognized value
silently falls through. -/
theorem c3_unknown_action_noop (db : List Consequence) (user : Nat)
    (req : Request) (pk : Nat) (c : Consequence) (a : String)
    (hauth : req.authenticated = true)
    (hfound : get_object db user pk = some c)
    (hact : formGet req.postData "action" = some a)
    (h1 : a ≠ "deny") (h2 : a ≠ "confirm") :
    applyAction c user a = c
    ∧ (consequenceUpdatePost db user req pk).db = db := by
  have hap : applyAction c user a = c := by simp [applyAction, h1, h2]
  refine ⟨hap, ?_⟩
  have hsave : ¬ (a = "deny" ∨ a = "confirm") := by
    rintro (h | h)
    · exact h1 h
    · exact h2 h
  by_cases hajax : req.is_ajax <;>
    by_cases hfail : c.state = .failed <;>
      simp [consequenceUpdatePost, hauth, hfound, hact, hsave, hajax, hap, hfail,
        PostOutcome.db]

def wReqUnknown : Request :=
  { authenticated := true, is_ajax := true, postData := [("action", "retry")] }

theorem c3_unknown_action_noop_witness :
    wReqUnknown.authenticated = true
    ∧ get_object wDb 7 1 = some wConsequence
    ∧ formGet wReqUnknown.postData "action" = some "retry"
    ∧ "retry" ≠ "deny"
    ∧ "retry" ≠ "confirm"
    ∧ (applyAction wConsequence 7 "retry" = wConsequence
      ∧ (consequenceUpdatePost wDb 7 wReqUnknown 1).db = wDb) :=
  ⟨by decide, by decide, by decide, by decide, by decide,
    c3_unknown_action_noop wDb 7 wReqUnknown 1 wConsequence "retry"
      (by decide) (by decide) (by decide) (by decide) (by decide)⟩

/-- Claim C10: a POST whose form data has no `action` key at all raises a
key-lookup error (the fall-through applies only to an unrecognized present
value); the database is unchanged. -/
theorem c10_missing_action_key (db : List Consequence) (user : Nat)
    (req : Request) (pk : Nat) (c : Consequence)
    (hauth : req.authenticated = true)
    (hfound : get_object db user pk = some c)
    (hkey : formGet req.postData "action" = none) :
    consequenceUpdatePost db user req pk = .keyError "action" db := by
  simp [consequenceUpdatePost, hauth, hfound, hkey]

def wReqNoAction : Request :=
  { authenticated := true, is_ajax := false, postData := [] }

theorem c10_missing_action_key_witness :
    wReqNoAction.authenticated = true
    ∧ get_object wDb 7 1 = some wConsequence
    ∧ formGet wReqNoAction.postData "action" = none
    ∧ consequenceUpdatePost wDb 7 wReqNoAction 1 = .keyError "action" wDb :=
  ⟨by decide, by decide, by decide,
    c10_missing_action_key wDb 7 wReqNoAction 1 wConsequence
      (by decide) (by decide) (by decide)⟩

/-- The security-hardening block of `ephios/settings.py`: each field is `none`
when the loader leaves the setting untouched (the framework default applies)
and `some v` when the loader forces the value `v`. -/
structure SecurityConfig where
  SESSION_COOKIE_SECURE : Option Bool
  CSRF_COOKIE_SECURE : Option Bool
  X_FRAME_OPTIONS : Option String
  SECURE_CONTENT_TYPE_NOSNIFF : Option Bool
  SECURE_SSL_REDIRECT : Option Bool
  SECURE_HSTS_SECONDS : Option Nat
  SECURE_HSTS_INCLUDE_SUBDOMAINS : Option Bool
  SECURE_REFERRER_POLICY : Option String
  deriving DecidableEq, Repr

/-- The `if not DEBUG:` block of `ephios/settings.py`. -/
def loadSecurityConfig (DEBUG : Bool) : SecurityConfig :=
  if DEBUG then
    { SESSION_COOKIE_SECURE := none, CSRF_COOKIE_SECURE := none,
      X_FRAME_OPTIONS := none, SECURE_CONTENT_TYPE_NOSNIFF := none,
      SECURE_SSL_REDIRECT := none, SECURE_HSTS_SECONDS := none,
      SECURE_HSTS_INCLUDE_SUBDOMAINS := none, SECURE_REFERRER_POLICY := none }
  else
    { SESSION_COOKIE_SECURE := some true, CSRF_COOKIE_SECURE := some true,
      X_FRAME_OPTIONS := some "DENY", SECURE_CONTENT_TYPE_NOSNIFF := some true,
      SECURE_SSL_REDIRECT := some true, SECURE_HSTS_SECONDS := some 3600,
      SECURE_HSTS_INCLUDE_SUBDOMAINS := some true,
      SECURE_REFERRER_POLICY := some "same-origin" }

/-- Claim C4: with DEBUG=false the loader forces secure session and CSRF
cookies, the SSL redirect, and 3600 seconds of HSTS including subdomains; with
DEBUG=true it forces none of these settings. -/
theorem c4_security_hardening :
    ((loadSecurityConfig false).SESSION_COOKIE_SECURE = some true
      ∧ (loadSecurityConfig false).CSRF_COOKIE_SECURE = some true
      ∧ (loadSecurityConfig false).SECURE_SSL_REDIRECT = some true
      ∧ (loadSecurityConfig false).SECURE_HSTS_SECONDS = some 3600
      ∧ (loadSecurityConfig false).SECURE_HSTS_INCLUDE_SUBDOMAINS = some true)
    ∧ ((loadSecurityConfig true).SESSION_COOKIE_SECURE = none
      ∧ (loadSecurityConfig true).CSRF_COOKIE_SECURE = none
      ∧ (loadSecurityConfig true).SECURE_SSL_REDIRECT = none
      ∧ (loadSecurityConfig true).SECURE_HSTS_SECONDS = none
      ∧ (loadSecurityConfig true).SECURE_HSTS_INCLUDE_SUBDOMAINS = none) := by
  decide

/-- `CORE_PLUGINS` of `ephios/settings.py`. -/
def CORE_PLUGINS : List String :=
  ["ephios.plugins.basesignup.apps.PluginApp",
   "ephios.plugins.pages.apps.PluginApp",
   "ephios.plugins.qualification_management.apps.PluginApp",
   "ephios.plugins.guests.apps.PluginApp",
   "ephios.plugins.eventautoqualification.apps.PluginApp",
   "ephios.plugins.simpleresource.apps.PluginApp"]

/-- `PLUGINS = copy.copy(CORE_PLUGINS)` followed by the loop appending the
value of each entry point of group `ephios.plugins` in discovery order. -/
def PLUGINS (entryPoints : List String) : List String :=
  entryPoints.foldl (fun acc ep => acc ++ [ep]) CORE_PLUGINS

theorem foldl_append_singleton {α : Type} (l acc : List α) :
    l.foldl (fun a x => a ++ [x]) acc = acc ++ l := by
  induction l generalizing acc with
  | nil => simp
  | cons x xs ih => simp [List.foldl_cons, ih]

/-- Claim C5: for every list of discovered entry points, the computed plugin
list starts with the six core plugins in declared order and continues with
exactly the discovered plugins in discovery order. -/
theorem c5_core_plugins_first (entryPoints : List String) :
    (PLUGINS entryPoints).take 6 = CORE_PLUGINS
    ∧ (PLUGINS entryPoints).drop 6 = entryPoints
    ∧ CORE_PLUGINS.length = 6 := by
  have h : PLUGINS entryPoints = CORE_PLUGINS ++ entryPoints :=
    foldl_append_singleton entryPoints CORE_PLUGINS
  rw [h]
  exact ⟨rfl, rfl, rfl⟩

/-- Errors of the environment reader: `env.str(name)` without a default raises
`ImproperlyConfigured` when the variable is absent, aborting startup. -/
inductive ConfigError where
  | improperlyConfigured (var : String)
  deriving DecidableEq, Repr

/-- The django-debug-toolbar block of `ephios/settings.py`: when DEBUG is true
and `env.bool("DEBUG_TOOLBAR", True)` holds, `INTERNAL_IPS` is read via
`env.str("INTERNAL_IPS")` with no default, so its absence aborts startup;
otherwise the block is skipped and INTERNAL_IPS stays unset. -/
def loadDebugToolbarConfig (DEBUG : Bool) (DEBUG_TOOLBAR : Option Bool)
    (INTERNAL_IPS : Option String) : Except ConfigError (Option String) :=
  if DEBUG && DEBUG_TOOLBAR.getD true then
    match INTERNAL_IPS with
    | some ips => .ok (some ips)
    | none => .error (.improperlyConfigured "INTERNAL_IPS")
  else .ok none

/-- Claim C9 counterexample: with DEBUG=true, DEBUG_TOOLBAR unset (default
true) and all required variables present, configuration loading fails when
INTERNAL_IPS is absent — INTERNAL_IPS is not unconditionally optional. -/
theorem c9_internal_ips_counterexample :
    loadDebugToolbarConfig true none none =
      .error (.improperlyConfigured "INTERNAL_IPS") := rfl

/-- Claim C9 (amended): INTERNAL_IPS is optional exactly when the debug-toolbar
block is inactive (DEBUG false, or DEBUG_TOOLBAR explicitly false); when DEBUG
is true and DEBUG_TOOLBAR is unset or true, a missing INTERNAL_IPS is a fatal
startup error, while a present INTERNAL_IPS always loads successfully. -/
theorem c9_internal_ips_conditionally_required (DEBUG : Bool)
    (DEBUG_TOOLBAR : Option Bool) :
    (loadDebugToolbarConfig DEBUG DEBUG_TOOLBAR none =
        .error (.improperlyConfigured "INTERNAL_IPS")
      ↔ (DEBUG && DEBUG_TOOLBAR.getD true) = true)
    ∧ (∀ ips, loadDebugToolbarConfig DEBUG DEBUG_TOOLBAR (some ips) =
        .ok (if DEBUG && DEBUG_TOOLBAR.getD true then some ips else none)) := by
  cases DEBUG with
  | false => simp [loadDebugToolbarConfig]
  | true =>
    cases DEBUG_TOOLBAR with
    | none => simp [loadDebugToolbarConfig]
    | some b => cases b <;> simp [loadDebugToolbarConfig]

/-- `footer[label] = url` on a Python dict: an existing key keeps its position
and receives the new value, a new key is appended at the end. -/
def dictSet (d : List (String × String)) (label url : String) :
    List (String × String) :=
  if d.any (fun p => decide (p.1 = label)) then
    d.map (fun p => if p.1 = label then (label, url) else p)
  else d ++ [(label, url)]

/-- Dict lookup: the value stored under a label (first entry carrying it). -/
def dictGet : List (String × String) → String → Option String
  | [], _ => none
  | p :: ps, label => if p.1 = label then some p.2 else dictGet ps label

/-- The first of two optional values. -/
def firstSome (a b : Option String) : Option String :=
  match a with
  | some u => some u
  | none => b

/-- The url of the last (label, url) item carrying the given label in a stream
of footer items, if any: the value a last-write-wins footer must realize. -/
def lastWrite : List (String × String) → String → Option String
  | [], _ => none
  | p :: ps, label =>
    firstSome (lastWrite ps label) (if p.1 = label then some p.2 else none)

/-- The footer loop of `ephios_base_context`
(`ephios/core/context.py`): starting from the empty dict, write every
(label, url) item of every receiver's result, in the order the signal
delivers the responses. -/
def buildFooter (responses : List (List (String × String))) :
    List (String × String) :=
  responses.foldl (fun footer result =>
    result.foldl (fun f p => dictSet f p.1 p.2) footer) []

/-- The nav loop of `ephios_base_context`: `nav += result` for each receiver's
result in order. -/
def buildNav {α : Type} (responses : List (List α)) : List α :=
  responses.foldl (fun nav result => nav ++ result) []

theorem dictGet_isSome_iff_any (d : List (String × String)) (label : String) :
    (dictGet d label).isSome = d.any (fun p => decide (p.1 = label)) := by
  induction d with
  | nil => rfl
  | cons p ps ih => by_cases h : p.1 = label <;> simp [dictGet, h, ih]

theorem dictGet_updateMap (d : List (String × String)) (label url l : String) :
    dictGet (d.map (fun p => if p.1 = label then (label, url) else p)) l =
      if l = label then (dictGet d label).map (fun _ => url) else dictGet d l := by
  induction d with
  | nil => by_cases h : l = label <;> simp [dictGet, h]
  | cons p ps ih =>
    by_cases hp : p.1 = label <;> by_cases hl : l = label
    · subst hl
      simp [dictGet, hp]
    · have h2 : ¬ label = l := fun h => hl h.symm
      simp [dictGet, hp, hl, h2, ih]
    · subst hl
      simp [dictGet, hp, ih]
    · simp [dictGet, hp, hl, ih]

theorem dictGet_append (d e : List (String × String)) (l : String) :
    dictGet (d ++ e) l = firstSome (dictGet d l) (dictGet e l) := by
  induction d with
  | nil => simp [dictGet, firstSome]
  | cons p ps ih => by_cases h : p.1 = l <;> simp [dictGet, h, ih, firstSome]

theorem dictGet_dictSet (d : List (String × String)) (label url l : String) :
    dictGet (dictSet d label url) l =
      if l = label then some url else dictGet d l := by
  unfold dictSet
  by_cases hhas : d.any (fun p => decide (p.1 = label)) = true
  · rw [if_pos hhas, dictGet_updateMap]
    by_cases hl : l = label
    · subst hl
      have hs : (dictGet d l).isSome = true := by
        rw [dictGet_isSome_iff_any]; exact hhas
      cases hdg : dictGet d l with
      | none => rw [hdg] at hs; simp at hs
      | some v => simp [hdg]
    · simp [hl]
  · rw [if_neg hhas, dictGet_append]
    have hnone : dictGet d label = none := by
      have hs := dictGet_isSome_iff_any d label
      rw [Bool.not_eq_true] at hhas
      rw [hhas] at hs
      cases hdg : dictGet d label with
      | none => rfl
      | some v => rw [hdg] at hs; simp at hs
    by_cases hl : l = label
    · subst hl
      simp [dictGet, hnone, firstSome]
    · have h2 : ¬ label = l := fun h => hl h.symm
      cases hdg : dictGet d l with
      | none => simp [dictGet, h2, hl, firstSome]
      | some v => simp [dictGet, h2, hl, firstSome]

theorem firstSome_assoc (a b c : Option String) :
    firstSome (firstSome a b) c = firstSome a (firstSome b c) := by
  cases a <;> rfl

theorem firstSome_none_right (a : Option String) : firstSome a none = a := by
  cases a <;> rfl

theorem dictGet_foldl_items (items : List (String × String))
    (d : List (String × String)) (l : String) :
    dictGet (items.foldl (fun f p => dictSet f p.1 p.2) d) l =
      firstSome (lastWrite items l) (dictGet d l) := by
  induction items generalizing d with
  | nil => rfl
  | cons p ps ih =>
    rw [List.foldl_cons, ih, dictGet_dictSet]
    show firstSome (lastWrite ps l) (if l = p.1 then some p.2 else dictGet d l)
      = firstSome (firstSome (lastWrite ps l) (if p.1 = l then some p.2 else none))
          (dictGet d l)
    rw [firstSome_assoc]
    by_cases h : p.1 = l
    · have h2 : l = p.1 := h.symm
      rw [if_pos h, if_pos h2]
      rfl
    · have h2 : ¬ l = p.1 := fun hh => h hh.symm
      rw [if_neg h, if_neg h2]
      rfl

theorem lastWrite_append (xs ys : List (String × String)) (l : String) :
    lastWrite (xs ++ ys) l = firstSome (lastWrite ys l) (lastWrite xs l) := by
  induction xs with
  | nil => exact (firstSome_none_right _).symm
  | cons p ps ih =>
    show firstSome (lastWrite (ps ++ ys) l) (if p.1 = l then some p.2 else none)
      = firstSome (lastWrite ys l)
          (firstSome (lastWrite ps l) (if p.1 = l then some p.2 else none))
    rw [ih, firstSome_assoc]

theorem dictGet_buildFooter_from (responses : List (List (String × String)))
    (d : List (String × String)) (l : String) :
    dictGet (responses.foldl
        (fun f r => r.foldl (fun g p => dictSet g p.1 p.2) f) d) l =
      firstSome (lastWrite responses.flatten l) (dictGet d l) := by
  induction responses generalizing d with
  | nil => rfl
  | cons r rs ih =>
    rw [List.foldl_cons, ih, dictGet_foldl_items, List.flatten_cons,
      lastWrite_append, firstSome_assoc]

theorem foldl_append_flatten {α : Type} (ls : List (List α)) (acc : List α) :
    ls.foldl (fun a r => a ++ r) acc = acc ++ ls.flatten := by
  induction ls generalizing acc with
  | nil => simp
  | cons r rs ih => simp [List.foldl_cons, ih]

/-- Claim C6: the footer maps each label to the url written by the last
receiver item carrying that label (last-write-wins in receiver order), the nav
list is the order-preserving concatenation of all receivers' results with no
entry dropped, and with zero receivers footer and nav are both empty. -/
theorem c6_context_aggregation :
    (∀ (responses : List (List (String × String))) (label : String),
      dictGet (buildFooter responses) label = lastWrite responses.flatten label)
    ∧ (∀ (α : Type) (responses : List (List α)),
      buildNav responses = responses.flatten)
    ∧ buildFooter [] = []
    ∧ (∀ (α : Type), buildNav ([] : List (List α)) = []) := by
  refine ⟨?_, ?_, rfl, fun α => rfl⟩
  · intro responses label
    rw [buildFooter, dictGet_buildFooter_from]
    exact firstSome_none_right _
  · intro α responses
    rw [buildNav, foldl_append_flatten]
    simp

/-- `ResourceCategory` row of `ephios/plugins/simpleresource/models.py`. -/
structure ResourceCategory where
  pk : Nat
  name : String
  deriving DecidableEq, Repr

/-- `Resource` row: a title and a required category foreign key declared
`on_delete=models.CASCADE`. -/
structure Resource where
  pk : Nat
  title : String
  category : Nat
  deriving DecidableEq, Repr

/-- `ResourceAllocation` row: a shift foreign key declared
`on_delete=models.CASCADE` and an optional many-to-many link to resources. -/
structure ResourceAllocation where
  pk : Nat
  shift : Nat
  resources : List Nat
  deriving DecidableEq, Repr

/-- The simpleresource tables, together with the set of shift primary keys. -/
structure ResourceDb where
  categories : List ResourceCategory
  resources : List Resource
  shifts : List Nat
  allocations : List ResourceAllocation
  deriving DecidableEq, Repr

/-- Deleting a `ResourceCategory`: the CASCADE on `Resource.category` removes
every resource of the category, and the many-to-many rows of the removed
resources disappear with them. -/
def deleteCategory (db : ResourceDb) (cpk : Nat) : ResourceDb :=
  { categories := db.categories.filter (fun c => decide (c.pk ≠ cpk)),
    resources := db.resources.filter (fun r => decide (r.category ≠ cpk)),
    shifts := db.shifts,
    allocations := db.allocations.map (fun a =>
      { a with resources := a.resources.filter (fun rpk =>
          decide (¬ ∃ r ∈ db.resources, r.pk = rpk ∧ r.category = cpk)) }) }

/-- Deleting a `Shift`: the CASCADE on `ResourceAllocation.shift` removes the
shift's allocation records; no cascade references the resource or category
tables. -/
def deleteShift (db : ResourceDb) (spk : Nat) : ResourceDb :=
  { categories := db.categories,
    resources := db.resources,
    shifts := db.shifts.filter (fun s => decide (s ≠ spk)),
    allocations := db.allocations.filter (fun a => decide (a.shift ≠ spk)) }

theorem filter_length_split {α : Type} (p : α → Prop) [DecidablePred p]
    (l : List α) :
    (l.filter (fun x => decide (¬ p x))).length
      + (l.filter (fun x => decide (p x))).length = l.length := by
  induction l with
  | nil => rfl
  | cons x xs ih =>
    simp only [decide_not] at ih ⊢
    by_cases h : p x <;> simp [List.filter_cons, h] <;> omega

/-- Claim C7: deleting a category removes exactly its own resources (membership
characterization plus the count equation), and deleting a shift removes exactly
its allocation records while the resource table is left entirely unchanged. -/
theorem c7_cascade_deletes (db : ResourceDb) (cpk spk : Nat) :
    ((∀ r : Resource,
        r ∈ (deleteCategory db cpk).resources ↔ r ∈ db.resources ∧ r.category ≠ cpk)
      ∧ (deleteCategory db cpk).resources.length
          + (db.resources.filter (fun r => decide (r.category = cpk))).length
          = db.resources.length)
    ∧ ((∀ a : ResourceAllocation,
        a ∈ (deleteShift db spk).allocations ↔ a ∈ db.allocations ∧ a.shift ≠ spk)
      ∧ (deleteShift db spk).resources = db.resources) := by
  refine ⟨⟨?_, ?_⟩, ⟨?_, rfl⟩⟩
  · intro r
    simp [deleteCategory, List.mem_filter]
  · exact filter_length_split (fun r => r.category = cpk) db.resources
  · intro a
    simp [deleteShift, List.mem_filter]

/-- A row of the many-to-many through table behind
`Qualification.included_qualifications` as declared in migration
`user_management/0004_auto_20201014_1648.py`: `fromQualification` includes
`toQualification`. -/
structure QualificationInclusion where
  fromQualification : Nat
  toQualification : Nat
  deriving DecidableEq, Repr

/-- The forward relation `Y.included_qualifications`: the qualifications
included by `y`. -/
def included_qualifications (table : List QualificationInclusion) (y : Nat) :
    List Nat :=
  (table.filter (fun row => decide (row.fromQualification = y))).map
    (fun row => row.toQualification)

/-- The reverse relation named `related_name="included_by"` by the migration:
the qualifications that include `x`. -/
def included_by (table : List QualificationInclusion) (x : Nat) : List Nat :=
  (table.filter (fun row => decide (row.toQualification = x))).map
    (fun row => row.fromQualification)

/-- Claim C8: the inclusion relationship is queryable bidirectionally: for all
qualifications X and Y, X is in `Y.included_qualifications` exactly when Y is
in `X.included_by`. -/
theorem c8_inclusion_bidirectional (table : List QualificationInclusion)
    (x y : Nat) :
    x ∈ included_qualifications table y ↔ y ∈ included_by table x := by
  simp only [included_qualifications, included_by, List.mem_map,
    List.mem_filter, decide_eq_true_eq]
  constructor
  · rintro ⟨row, ⟨hmem, hfrom⟩, hto⟩
    exact ⟨row, ⟨hmem, hto⟩, hfrom⟩
  · rintro ⟨row, ⟨hmem, hto⟩, hfrom⟩
    exact ⟨row, ⟨hmem, hfrom⟩, hto⟩

end Ephios
